import Mathlib

/- Verification development for the hermez-node core.

   The definitions below are a shallow embedding of the Go sources:
   - the block Synchronizer (synchronizer/synchronizer.go): Sync2, reorg,
     rollupSync, auctionSync, wdelayerSync, the withdrawal/WDelayer-deposit
     pairing loop, AddToken processing with cutStringMax;
   - the transaction selector helper getL2Profitable (same file);
   - the draft Synchronizer.Status (earlier draft of the synchronizer);
   - the test-harness transaction generator (transakcio): the L1 user-tx
     queues (addToL1Queue / batch advance) and the account-Idx assignment
     (calculateIdxForL1Txs);
   - the transaction processor ProcessTxs, whose implementation is not among
     the sources (only its tests and callers are): it is modelled from the
     specification, as marked on each such definition.

   Go machine integers are modelled as Nat where the code keeps them
   non-negative (block numbers, balances, counters); balances are
   arbitrary-precision non-negative integers in the source (big.Int used
   non-negatively).  Fallible Go code (error returns, panics) is modelled
   with Option / Except.  External I/O (ethereum client, history DB) is
   modelled as explicit environment records of pure functions. -/

namespace Hermez

/- ===================== ERC-20 token registration (rollupSync) ============ -/

/-- ERC-20 constants returned by the EthERC20Consts probe. -/
structure ERC20Consts where
  name : String
  symbol : String
  decimals : Nat
deriving Repr, DecidableEq

/-- A registered token record (common.Token fields used by rollupSync). -/
structure Token where
  tokenID : Nat
  ethAddr : Nat
  ethBlockNum : Nat
  name : String
  symbol : String
  decimals : Nat
deriving Repr, DecidableEq

/-- Embedding of cutStringMax: keep the first max characters of a string. -/
def cutStringMax (s : String) (max : Nat) : String :=
  if s.length > max then String.mk (s.toList.take max) else s

/-- A rollup AddToken event (RollupEventAddToken fields used). -/
structure AddTokenEvent where
  tokenID : Nat
  tokenAddress : Nat
deriving Repr, DecidableEq

/-- Embedding of the AddToken branch of rollupSync: build the token record
stored for one AddToken event, probing the ERC-20 constants. -/
def processAddToken (erc20Consts : Nat → Option ERC20Consts) (blockNum : Nat)
    (evt : AddTokenEvent) : Token :=
  match erc20Consts evt.tokenAddress with
  | none =>
    { tokenID := evt.tokenID, ethAddr := evt.tokenAddress, ethBlockNum := blockNum,
      name := "ERC20_ETH_ERROR", symbol := "ERROR", decimals := 1 }
  | some c =>
    { tokenID := evt.tokenID, ethAddr := evt.tokenAddress, ethBlockNum := blockNum,
      name := cutStringMax c.name 20, symbol := cutStringMax c.symbol 10,
      decimals := c.decimals }

/- ===================== getL2Profitable (txselector) ====================== -/

/-- The PoolL2Tx fields used by getL2Profitable and the txs sort order.
AbsoluteFee is a float64 in the source; it is modelled as Nat (the ordering
is all that matters here). -/
structure PoolTx where
  fromIdx : Nat
  toIdx : Nat
  amount : Nat
  nonce : Nat
  absoluteFee : Nat
deriving Repr, DecidableEq

/-- sort.Sort over txs with Less i j = AbsoluteFee i > AbsoluteFee j:
sort by AbsoluteFee in non-increasing order. -/
def sortByFeeDesc (l : List PoolTx) : List PoolTx :=
  l.mergeSort (fun a b => decide (b.absoluteFee ≤ a.absoluteFee))

/-- sort.SliceStable over txs by Nonce in non-decreasing order. -/
def sortByNonce (l : List PoolTx) : List PoolTx :=
  l.mergeSort (fun a b => decide (a.nonce ≤ b.nonce))

/-- Embedding of getL2Profitable: sort by AbsoluteFee descending; if fewer
txs than max, return them as they are (fee-sorted); otherwise keep the first
max and re-sort that prefix by Nonce. -/
def getL2Profitable (txs : List PoolTx) (max : Nat) : List PoolTx :=
  let sorted := sortByFeeDesc txs
  if sorted.length < max then sorted
  else sortByNonce (sorted.take max)

/- ===================== draft Synchronizer.Status ========================= -/

/-- Result of a database / client call in the draft Status code: a value,
sql.ErrNoRows, or another error. -/
inductive DBResult (α : Type) where
  | ok (a : α)
  | noRows
  | failed
deriving Repr, DecidableEq

/-- The environment read by the draft Status: HistoryDB.GetLastBlock,
HistoryDB.GetLastBatchNum, ethClient.EthCurrentBlock. -/
structure StatusEnv where
  getLastBlock : DBResult Nat    -- the last saved block number
  getLastBatchNum : DBResult Nat
  ethCurrentBlock : DBResult Nat
deriving Repr, DecidableEq

/-- common.SyncStatus fields assigned by the draft Status. -/
structure SyncStatus where
  currentBlock : Nat
  currentBatch : Nat
  synchronized : Bool
deriving Repr, DecidableEq

/-- Outcome of one call of the draft Status: a status record, an error
return, or a run-time nil-pointer dereference. -/
inductive StatusOut where
  | ok (st : SyncStatus)
  | err
  | nilPointerDereference
deriving Repr, DecidableEq

/-- Embedding of the draft Synchronizer.Status: it declares
var status *common.SyncStatus (a nil pointer, modelled as none) and then
assigns status.CurrentBlock, dereferencing the pointer.  Assigning through
the pointer while it is nil is the nilPointerDereference outcome. -/
def statusDraft (env : StatusEnv) : StatusOut :=
  let status : Option SyncStatus := none
  match env.getLastBlock with
  | .failed => .err
  | .noRows => .err
  | .ok lastSavedBlockNum =>
    match status with
    | none => .nilPointerDereference
    | some st =>
      let st := { st with currentBlock := lastSavedBlockNum }
      match env.getLastBatchNum with
      | .failed => .err
      | .noRows => .ok st    -- sql.ErrNoRows is tolerated; CurrentBatch keeps its zero value
      | .ok lastSavedBatch =>
        let st := { st with currentBatch := lastSavedBatch }
        match env.ethCurrentBlock with
        | .failed => .err
        | .noRows => .err
        | .ok latestBlockNum =>
          .ok { st with synchronized := st.currentBlock = latestBlockNum }

/- ===================== transakcio L1 queues (test harness) =============== -/

/-- The queue bookkeeping of the transakcio TestContext: the queues array,
the toForge index and the openToForge index.  The queue elements are left
polymorphic (the harness stores L1Tx records; only the structure matters). -/
structure L1QueueState (α : Type) where
  queues : List (List α)
  toForgeNum : Nat
  openToForge : Nat
deriving Repr

/-- NewTestContext queue initialisation: two queues, one toForge (index 0)
and one openToForge (index 1). -/
def initQueueState (α : Type) : L1QueueState α :=
  { queues := [[], []], toForgeNum := 0, openToForge := 1 }

/-- Embedding of addToL1Queue: if the open queue reached the
rollupConstMaxL1UserTx cap, open a new queue first; then append the tx to
the open queue. -/
def addToL1Queue (maxL1UserTx : Nat) (st : L1QueueState α) (tx : α) : L1QueueState α :=
  if maxL1UserTx ≤ (st.queues.getD st.openToForge []).length then
    let st := { st with openToForge := st.openToForge + 1, queues := st.queues ++ [[]] }
    { st with queues :=
        st.queues.set st.openToForge ((st.queues.getD st.openToForge []) ++ [tx]) }
  else
    { st with queues :=
        st.queues.set st.openToForge ((st.queues.getD st.openToForge []) ++ [tx]) }

/-- Embedding of the typeNewBatchL1 queue advance in GenerateBlocks: the
toForge queue was consumed, so toForgeNum moves forward; if it caught up
with openToForge, a fresh empty open queue is appended. -/
def advanceL1Batch (st : L1QueueState α) : L1QueueState α :=
  let st := { st with toForgeNum := st.toForgeNum + 1 }
  if st.toForgeNum = st.openToForge then
    { st with openToForge := st.openToForge + 1, queues := st.queues ++ [[]] }
  else st

/-- The queue invariants of the claim: openToForge is the (single) last
queue of the array, toForgeNum has not passed it, and no queue exceeds the
maxL1UserTx cap. -/
def QueueInv (maxL1UserTx : Nat) (st : L1QueueState α) : Prop :=
  st.openToForge + 1 = st.queues.length ∧
  st.toForgeNum < st.openToForge ∧
  ∀ q ∈ st.queues, q.length ≤ maxL1UserTx

/- ===================== transakcio Idx assignment ========================= -/

/-- L1 transaction types (common.TxType values used by the embeddings). -/
inductive L1TxKind where
  | createAccountDeposit
  | createAccountDepositTransfer
  | deposit
  | depositTransfer
  | forceTransfer
  | forceExit
deriving Repr, DecidableEq

/-- The fields of a transakcio test L1 tx that drive Idx assignment. -/
structure TestL1Tx where
  fromName : String
  tokenID : Nat
  kind : L1TxKind
deriving Repr, DecidableEq

/-- The account-creation bookkeeping of the TestContext: the per-user
per-token account map holding the assigned Idx, and the running idx counter.
assignedLog is ghost data recording every assigned Idx in order, used only
to state the claim. -/
structure IdxCtx where
  accounts : List ((String × Nat) × Nat)
  idx : Nat
  assignedLog : List Nat
deriving Repr, DecidableEq

/-- Users[name].Accounts[tokenID] lookup. -/
def lookupAccountIdx (ctx : IdxCtx) (key : String × Nat) : Option Nat :=
  (ctx.accounts.find? (fun p => p.1 = key)).map (fun p => p.2)

/-- The initial TestContext counter state.  Modelled from the spec: the
value of the constant common.UserThreshold is not among the sources; the
spec fixes that user accounts start at Idx 256. -/
def initIdxCtx : IdxCtx := { accounts := [], idx := 256, assignedLog := [] }

/-- Embedding of calculateIdxForL1Txs: for every CreateAccountDeposit or
CreateAccountDepositTransfer tx, fail if the (user, tokenID) account already
exists, otherwise record the account with the current idx counter and bump
the counter by one.  Other tx types assign nothing. -/
def calculateIdxForL1Txs : IdxCtx → List TestL1Tx → Option IdxCtx
  | ctx, [] => some ctx
  | ctx, tx :: txs =>
    if tx.kind = .createAccountDeposit ∨ tx.kind = .createAccountDepositTransfer then
      match lookupAccountIdx ctx (tx.fromName, tx.tokenID) with
      | some _ => none
      | none =>
        calculateIdxForL1Txs
          { accounts := ((tx.fromName, tx.tokenID), ctx.idx) :: ctx.accounts,
            idx := ctx.idx + 1,
            assignedLog := ctx.assignedLog ++ [ctx.idx] } txs
    else calculateIdxForL1Txs ctx txs

/-- A chain history is a sequence of tx groups (the coordinator txs of each
batch and the consumed L1 user queues), each run through
calculateIdxForL1Txs in order. -/
def runIdxHistory : IdxCtx → List (List TestL1Tx) → Option IdxCtx
  | ctx, [] => some ctx
  | ctx, g :: gs =>
    match calculateIdxForL1Txs ctx g with
    | none => none
    | some ctx2 => runIdxHistory ctx2 gs

/-- A sample two-block history creating three accounts, used as the concrete
instance of the Idx-assignment claim. -/
def sampleIdxHistory : List (List TestL1Tx) :=
  [[{ fromName := "A", tokenID := 1, kind := .createAccountDeposit },
    { fromName := "B", tokenID := 1, kind := .createAccountDeposit }],
   [{ fromName := "A", tokenID := 2, kind := .createAccountDepositTransfer }]]

/- ===================== Synchronizer (Sync2) ============================== -/

/-- common.Block fields used by the synchronizer.  Block numbers are int64
in Go but always non-negative; hashes are opaque and modelled as Nat. -/
structure Block where
  num : Nat
  hash : Nat
  parentHash : Nat
deriving Repr, DecidableEq

/-- A rollup Withdraw event (RollupEventWithdraw). -/
structure WithdrawEvent where
  idx : Nat
  numExitRoot : Nat
  instantWithdraw : Bool
  txHash : Nat
deriving Repr, DecidableEq

/-- common.WithdrawInfo: the stored withdrawal record, with the Owner and
Token fields that the pairing step of Sync2 fills in for non-instant
withdrawals (Go zero values before annotation). -/
structure WithdrawInfo where
  idx : Nat
  numExitRoot : Nat
  instantWithdraw : Bool
  txHash : Nat
  owner : Nat
  token : Nat
deriving Repr, DecidableEq

/-- common.WDelayerTransfer (a withdrawal-delayer deposit or withdrawal). -/
structure WDelayerTransfer where
  owner : Nat
  token : Nat
  amount : Nat
deriving Repr, DecidableEq

/-- A withdrawal-delayer Deposit event. -/
structure DepositEvent where
  owner : Nat
  token : Nat
  amount : Nat
  txHash : Nat
deriving Repr, DecidableEq

/-- The rollup events of one block used by the claims.  The ForgeBatch
events are not modelled: their processing calls the transaction processor,
whose code is not among the sources, and no claim depends on it through the
synchronizer. -/
structure RollupEvents where
  addToken : List AddTokenEvent
  withdraw : List WithdrawEvent
deriving Repr, DecidableEq

/-- The auction events of one block (only the bid stream is kept; the
variable-update streams do not matter to the claims). -/
structure AuctionEvents where
  newBid : List (Nat × Nat × Nat)
deriving Repr, DecidableEq

/-- The withdrawal-delayer events of one block. -/
structure WDelayerEvents where
  deposit : List DepositEvent
deriving Repr, DecidableEq

/-- common.RollupData as assembled by rollupSync (the parts the claims
mention). -/
structure RollupData where
  withdrawals : List WithdrawInfo
  addedTokens : List Token
deriving Repr, DecidableEq

/-- common.NewRollupData: empty slices. -/
def emptyRollupData : RollupData := { withdrawals := [], addedTokens := [] }

/-- common.AuctionData as assembled by auctionSync. -/
structure AuctionData where
  bids : List (Nat × Nat × Nat)
deriving Repr, DecidableEq

/-- common.NewAuctionData: empty slices. -/
def emptyAuctionData : AuctionData := { bids := [] }

/-- common.WDelayerData as assembled by wdelayerSync: the deposits in event
order and the DepositsByTxHash map (tx-hash to deposits in chronological
order). -/
structure WDelayerData where
  deposits : List WDelayerTransfer
  depositsByTxHash : Nat → List WDelayerTransfer

/-- common.NewWDelayerData: empty slices and an empty map. -/
def emptyWDelayerData : WDelayerData :=
  { deposits := [], depositsByTxHash := fun _ => [] }

/-- The synchronizer error kinds relevant to the claims:
eth.ErrBlockHashMismatchEvent, the missing-WDelayer-deposit error of Sync2,
the failures of the reorg walk, and the lastSavedBlock below startBlockNum
error. -/
inductive SyncErr where
  | blockHashMismatch
  | wdelayerDepositNotFound
  | ethBlockNotFound
  | histBlockNotFound
  | lastSavedBelowStart
deriving Repr, DecidableEq

/-- The external world read by Sync2: the chain client (EthBlockByNumber
returning none for ethereum.NotFound, and the three per-block event streams,
each tagged with an optional block hash) and the ERC-20 probe. -/
structure SyncEnv where
  startBlockNum : Nat
  chain : Nat → Option Block
  rollupEventsByBlock : Nat → Option Nat × RollupEvents
  auctionEventsByBlock : Nat → Option Nat × AuctionEvents
  wdelayerEventsByBlock : Nat → Option Nat × WDelayerEvents
  erc20Consts : Nat → Option ERC20Consts

/-- The HistoryDB state visible to Sync2 and reorg: stored blocks by number,
the last stored block, and (as abstract per-height data) the batch number
and smart-contract variable snapshot current at each height. -/
structure HistoryDB where
  blocks : Nat → Option Block
  lastBlock : Block
  batchNumAt : Nat → Nat
  scVarsAt : Nat → Nat

/-- HistoryDB.Reorg: truncate the store just after block b, which becomes
the last block. -/
def HistoryDB.truncate (db : HistoryDB) (b : Block) : HistoryDB :=
  { blocks := fun n => if n ≤ b.num then db.blocks n else none,
    lastBlock := b,
    batchNumAt := db.batchNumAt,
    scVarsAt := db.scVarsAt }

/-- The per-block data persisted by AddBlockSCData (the claims' parts). -/
structure BlockData where
  block : Block
  rollup : RollupData
  auction : AuctionData
  wdelayer : WDelayerData

/-- AddBlockSCData: persist the block data, advancing the last block. -/
def HistoryDB.addBlock (db : HistoryDB) (bd : BlockData) : HistoryDB :=
  { db with
    blocks := fun n => if n = bd.block.num then some bd.block else db.blocks n,
    lastBlock := bd.block }

/-- Embedding of the backward walk of reorg: starting at block number bn,
compare the stored block hash with the chain block hash; stop at the first
match; keep walking while the loop condition startBlockNum <= blockNum
holds, and settle on the block at startBlockNum when the walk exhausts (the
source then truncates to that block regardless).  A missing chain or stored
block is an error return. -/
def reorgFind (env : SyncEnv) (db : HistoryDB) : Nat → Except SyncErr Block
  | bn =>
    match env.chain bn, db.blocks bn with
    | none, _ => .error .ethBlockNotFound
    | some _, none => .error .histBlockNotFound
    | some eth, some blk =>
      if blk.hash = eth.hash then .ok blk
      else if h : env.startBlockNum < bn then reorgFind env db (bn - 1)
      else .ok blk
termination_by bn => bn
decreasing_by omega

/-- Embedding of reorg: find the last valid block, truncate the HistoryDB
there, and report the height together with the batch number and variable
snapshot the StateDB is reset to (resetState reads both after the
truncation). -/
def reorg (env : SyncEnv) (db : HistoryDB) (uncle : Block) :
    Except SyncErr (Nat × HistoryDB × Nat × Nat) :=
  match reorgFind env db uncle.num with
  | .error e => .error e
  | .ok blk => .ok (blk.num, db.truncate blk, db.batchNumAt blk.num, db.scVarsAt blk.num)

/-- Embedding of rollupSync (the event-stream gate and the claim-relevant
event processing): a nil event block hash means no events, contributing
empty data; a non-nil hash different from the block hash is the
BlockHashMismatch error; otherwise the withdrawals and added tokens are
assembled. -/
def rollupSync (env : SyncEnv) (b : Block) : Except SyncErr RollupData :=
  match env.rollupEventsByBlock b.num with
  | (none, _) => .ok emptyRollupData
  | (some h, evts) =>
    if h = b.hash then
      .ok { withdrawals := evts.withdraw.map (fun e =>
              { idx := e.idx, numExitRoot := e.numExitRoot,
                instantWithdraw := e.instantWithdraw, txHash := e.txHash,
                owner := 0, token := 0 }),
            addedTokens := evts.addToken.map (processAddToken env.erc20Consts b.num) }
    else .error .blockHashMismatch

/-- Embedding of auctionSync: same block-hash gate; bids are collected. -/
def auctionSync (env : SyncEnv) (b : Block) : Except SyncErr AuctionData :=
  match env.auctionEventsByBlock b.num with
  | (none, _) => .ok emptyAuctionData
  | (some h, evts) =>
    if h = b.hash then .ok { bids := evts.newBid }
    else .error .blockHashMismatch

/-- Embedding of wdelayerSync: same block-hash gate; each Deposit event is
appended to the deposits slice and to the DepositsByTxHash entry of its
transaction hash, so each entry lists deposits in chronological order. -/
def wdelayerSync (env : SyncEnv) (b : Block) : Except SyncErr WDelayerData :=
  match env.wdelayerEventsByBlock b.num with
  | (none, _) => .ok emptyWDelayerData
  | (some h, evts) =>
    if h = b.hash then
      .ok (evts.deposit.foldl
        (fun d e =>
          { deposits := d.deposits ++ [⟨e.owner, e.token, e.amount⟩],
            depositsByTxHash := fun k =>
              if k = e.txHash then d.depositsByTxHash k ++ [⟨e.owner, e.token, e.amount⟩]
              else d.depositsByTxHash k })
        emptyWDelayerData)
    else .error .blockHashMismatch

/-- Embedding of the withdrawal-pairing loop of Sync2: every non-instant
withdrawal pops the first WDelayer deposit stored under its transaction
hash (consuming them in chronological order) and takes its owner and token;
an empty entry is the hard error.  Returns the annotated withdrawals and
the consumed map. -/
def pairWithdrawals :
    (Nat → List WDelayerTransfer) → List WithdrawInfo →
    Except SyncErr (List WithdrawInfo × (Nat → List WDelayerTransfer))
  | m, [] => .ok ([], m)
  | m, w :: ws =>
    if w.instantWithdraw then
      match pairWithdrawals m ws with
      | .error e => .error e
      | .ok (ws2, m2) => .ok (w :: ws2, m2)
    else
      match m w.txHash with
      | [] => .error .wdelayerDepositNotFound
      | d :: rest =>
        match pairWithdrawals (fun k => if k = w.txHash then rest else m k) ws with
        | .error e => .error e
        | .ok (ws2, m2) =>
          .ok ({ w with owner := d.owner, token := d.token } :: ws2, m2)

/-- The outcome of one Sync2 call.  Constructors other than synced and
reorged leave the HistoryDB and StateDB untouched (the source returns
before AddBlockSCData); reorged carries the truncated HistoryDB, the batch
number the StateDB is reset to and the restored variable snapshot. -/
inductive Sync2Result where
  | idle
  | reorged (discarded : Nat) (newDB : HistoryDB) (resetBatchNum : Nat) (restoredVars : Nat)
  | synced (bd : BlockData) (newDB : HistoryDB)
  | errored (e : SyncErr)

/-- Embedding of Sync2 (with lastSavedBlock taken from the HistoryDB): check
the start bound, fetch the next block (idle when not yet mined), detect a
reorg by the parent-hash comparison and run the reorg protocol returning the
discarded count, otherwise fetch the three event streams, pair the
non-instant withdrawals with the WDelayer deposits, and persist the
assembled BlockData. -/
def sync2 (env : SyncEnv) (db : HistoryDB) : Sync2Result :=
  let lastSaved := db.lastBlock
  if lastSaved.num < env.startBlockNum then .errored .lastSavedBelowStart
  else
    match env.chain (lastSaved.num + 1) with
    | none => .idle
    | some ethBlock =>
      if lastSaved.hash ≠ ethBlock.parentHash then
        match reorg env db lastSaved with
        | .error e => .errored e
        | .ok (lastValidNum, db2, resetBatch, vars) =>
          .reorged (lastSaved.num - lastValidNum) db2 resetBatch vars
      else
        match rollupSync env ethBlock with
        | .error e => .errored e
        | .ok rd =>
          match auctionSync env ethBlock with
          | .error e => .errored e
          | .ok ad =>
            match wdelayerSync env ethBlock with
            | .error e => .errored e
            | .ok wd =>
              match pairWithdrawals wd.depositsByTxHash rd.withdrawals with
              | .error e => .errored e
              | .ok (ws2, m2) =>
                let bd : BlockData :=
                  { block := ethBlock,
                    rollup := { rd with withdrawals := ws2 },
                    auction := ad,
                    wdelayer := { deposits := wd.deposits, depositsByTxHash := m2 } }
                .synced bd (db.addBlock bd)

/-- Number of non-instant withdrawals with the given tx hash in a list
(how many deposits under that hash they consume). -/
def consumedBy (ws : List WithdrawInfo) (h : Nat) : Nat :=
  (ws.filter (fun w => !w.instantWithdraw && w.txHash = h)).length

/-- Annotating a withdrawal with the owner and token of a WDelayer
deposit. -/
def annotate (w : WithdrawInfo) (d : WDelayerTransfer) : WithdrawInfo :=
  { w with owner := d.owner, token := d.token }

/-- A sample environment for the concrete synchronizer instances: block 3
extends the stored block 2, the rollup stream carries one non-instant
withdrawal with tx hash 77, and the WDelayer stream carries one deposit
with the same tx hash. -/
def sampleSyncEnv : SyncEnv :=
  { startBlockNum := 0,
    chain := fun n => if n = 3 then some ⟨3, 30, 20⟩ else none,
    rollupEventsByBlock := fun _ =>
      (some 30, { addToken := [], withdraw := [⟨256, 1, false, 77⟩] }),
    auctionEventsByBlock := fun _ => (none, ⟨[]⟩),
    wdelayerEventsByBlock := fun _ => (some 30, { deposit := [⟨900, 901, 50, 77⟩] }),
    erc20Consts := fun _ => none }

/-- The sample HistoryDB whose last stored block is block 2. -/
def sampleSyncDB : HistoryDB :=
  { blocks := fun n => if n = 2 then some ⟨2, 20, 10⟩ else none,
    lastBlock := ⟨2, 20, 10⟩, batchNumAt := fun _ => 0, scVarsAt := fun _ => 0 }

/-- The block data persisted for the sample environment: the withdrawal is
annotated with the deposit's owner 900 and token 901, and the deposit entry
under tx hash 77 has been consumed. -/
def sampleBlockData : BlockData :=
  { block := ⟨3, 30, 20⟩,
    rollup := { withdrawals := [⟨256, 1, false, 77, 900, 901⟩], addedTokens := [] },
    auction := ⟨[]⟩,
    wdelayer :=
      { deposits := [⟨900, 901, 50⟩],
        depositsByTxHash := fun k => if k = 77 then [] else
          (fun k2 => if k2 = 77 then [(⟨900, 901, 50⟩ : WDelayerTransfer)] else []) k } }

/- ===================== Transaction processor ============================= -/

/- The ProcessTxs implementation is not among the sources (only its tests
   and callers are), so the definitions of this section are modelled from
   the specification, section 4.3, as marked on each one. -/

/-- Modelled from the spec: the rollup account record (the TxProcessor view:
Idx is the key, the record holds TokenID, Nonce, Balance and the owner keys;
keys are opaque and modelled as Nat). -/
structure Account where
  tokenID : Nat
  nonce : Nat
  balance : Nat
  bjj : Nat
  ethAddr : Nat
deriving Repr, DecidableEq

/-- Modelled from the spec: the StateDB seen by the TxProcessor: the account
trie keyed by Idx, the reverse-lookup store keyed by (EthAddr, BJJ,
TokenID), the last assigned Idx, the accumulated CollectedFees per TokenID,
and the exit records (Idx, Amount). -/
structure TPState where
  accounts : Nat → Option Account
  idxByTriple : List ((Nat × Nat × Nat) × Nat)
  lastIdx : Nat
  collectedFees : Nat → Nat
  exits : List (Nat × Nat)

/-- Modelled from the spec: the empty state; the first 256 indices are
reserved, so the last used Idx starts at 255 and user accounts start at
256. -/
def initTPState : TPState :=
  { accounts := fun _ => none, idxByTriple := [], lastIdx := 255,
    collectedFees := fun _ => 0, exits := [] }

/-- StateDB.GetAccount. -/
def TPState.getAccount (st : TPState) (idx : Nat) : Option Account :=
  st.accounts idx

/-- Set the account stored at an Idx. -/
def TPState.setAccount (st : TPState) (idx : Nat) (a : Account) : TPState :=
  { st with accounts := fun j => if j = idx then some a else st.accounts j }

/-- Whether an account for the (EthAddr, BJJ, TokenID) triple exists. -/
def TPState.hasTriple (st : TPState) (t : Nat × Nat × Nat) : Bool :=
  st.idxByTriple.any (fun p => p.1 = t)

/-- Modelled from the spec: createAccount assigns the next Idx, updates both
stores and bumps lastIdx. -/
def TPState.createAccount (st : TPState) (a : Account) : TPState × Nat :=
  let idx := st.lastIdx + 1
  ({ st with
     accounts := fun j => if j = idx then some a else st.accounts j,
     idxByTriple := ((a.ethAddr, a.bjj, a.tokenID), idx) :: st.idxByTriple,
     lastIdx := idx }, idx)

/-- Modelled from the spec: an L1 transaction (the fields of section 3). -/
structure L1TxM where
  fromIdx : Nat
  toIdx : Nat
  tokenID : Nat
  amount : Nat
  depositAmount : Nat
  fromBJJ : Nat
  fromEthAddr : Nat
  kind : L1TxKind
deriving Repr, DecidableEq

/-- Modelled from the spec: apply one L1 transaction under the soft-failure
semantics of section 4.3: a tx that fails its validity check is consumed but
not applied; account creation still happens even when a transfer leg fails.
- CreateAccountDeposit: create the account with balance DepositAmount and
  nonce 0; a duplicate (EthAddr, BJJ, TokenID) triple is rejected.
- CreateAccountDepositTransfer: create the account, then transfer Amount
  from it to ToIdx; on underflow or an invalid recipient the transfer leg
  fails but the account keeps the deposited balance.
- Deposit: credit DepositAmount to FromIdx iff FromEthAddr matches.
- DepositTransfer: as Deposit, then transfer Amount to ToIdx.
- ForceTransfer: an unsigned transfer FromIdx to ToIdx of Amount.
- ForceExit: move Amount from FromIdx to the exit pseudo-account 1 and
  record an exit. -/
def applyL1Tx (st : TPState) (tx : L1TxM) : TPState :=
  match tx.kind with
  | .createAccountDeposit =>
    if st.hasTriple (tx.fromEthAddr, tx.fromBJJ, tx.tokenID) then st
    else
      (st.createAccount
        { tokenID := tx.tokenID, nonce := 0, balance := tx.depositAmount,
          bjj := tx.fromBJJ, ethAddr := tx.fromEthAddr }).1
  | .createAccountDepositTransfer =>
    if st.hasTriple (tx.fromEthAddr, tx.fromBJJ, tx.tokenID) then st
    else
      let created := st.createAccount
        { tokenID := tx.tokenID, nonce := 0, balance := tx.depositAmount,
          bjj := tx.fromBJJ, ethAddr := tx.fromEthAddr }
      let st1 := created.1
      let newIdx := created.2
      match st1.getAccount tx.toIdx with
      | none => st1
      | some accTo =>
        if accTo.tokenID = tx.tokenID ∧ tx.amount ≤ tx.depositAmount ∧ tx.toIdx ≠ newIdx then
          let st2 := st1.setAccount newIdx
            { tokenID := tx.tokenID, nonce := 0, balance := tx.depositAmount - tx.amount,
              bjj := tx.fromBJJ, ethAddr := tx.fromEthAddr }
          st2.setAccount tx.toIdx { accTo with balance := accTo.balance + tx.amount }
        else st1
  | .deposit =>
    match st.getAccount tx.fromIdx with
    | none => st
    | some acc =>
      if acc.ethAddr = tx.fromEthAddr then
        st.setAccount tx.fromIdx { acc with balance := acc.balance + tx.depositAmount }
      else st
  | .depositTransfer =>
    match st.getAccount tx.fromIdx with
    | none => st
    | some acc =>
      if acc.ethAddr = tx.fromEthAddr then
        let st1 := st.setAccount tx.fromIdx
          { acc with balance := acc.balance + tx.depositAmount }
        match st1.getAccount tx.fromIdx, st1.getAccount tx.toIdx with
        | some accFrom, some accTo =>
          if accTo.tokenID = tx.tokenID ∧ accFrom.tokenID = tx.tokenID ∧
              tx.amount ≤ accFrom.balance then
            let st2 := st1.setAccount tx.fromIdx
              { accFrom with balance := accFrom.balance - tx.amount }
            match st2.getAccount tx.toIdx with
            | some accTo2 =>
              st2.setAccount tx.toIdx { accTo2 with balance := accTo2.balance + tx.amount }
            | none => st2
          else st1
        | _, _ => st1
      else st
  | .forceTransfer =>
    match st.getAccount tx.fromIdx, st.getAccount tx.toIdx with
    | some accFrom, some accTo =>
      if accTo.tokenID = tx.tokenID ∧ accFrom.tokenID = tx.tokenID ∧
          tx.amount ≤ accFrom.balance ∧ tx.fromIdx ≠ tx.toIdx then
        let st1 := st.setAccount tx.fromIdx
          { accFrom with balance := accFrom.balance - tx.amount }
        st1.setAccount tx.toIdx { accTo with balance := accTo.balance + tx.amount }
      else st
    | _, _ => st
  | .forceExit =>
    match st.getAccount tx.fromIdx with
    | none => st
    | some acc =>
      if acc.tokenID = tx.tokenID ∧ tx.amount ≤ acc.balance then
        let st1 := st.setAccount tx.fromIdx { acc with balance := acc.balance - tx.amount }
        { st1 with exits := st1.exits ++ [(tx.fromIdx, tx.amount)] }
      else st

/-- Modelled from the spec: the 256-entry fee table itself is a fixed
protocol constant not present in the sources.  The spec fixes selector 0 at
no fee and pins, through its boundary scenarios 3 and 4, that Amount 1000 at
fee-selector 126 yields fee 101; the table is modelled as that rational
multiplier (101/1000 at selector 126, 0 at the selectors the spec leaves
undetermined), the fee being the floor of Amount times the multiplier. -/
def feeTableNum : Nat → Nat
  | 126 => 101
  | _ => 0

/-- Denominator of the modelled fee-table multiplier. -/
def feeTableDen : Nat → Nat := fun _ => 1000

/-- Modelled from the spec: feeAmount is the floor of
Amount × feeTable[FeeSelector]. -/
def feeAmount (amount sel : Nat) : Nat := amount * feeTableNum sel / feeTableDen sel

/-- L2 transaction types used by the model (the ToEthAddr / ToBJJ variants
only resolve an AuxToIdx before behaving as Transfer and are not needed by
the claims). -/
inductive L2Kind where
  | transfer
  | exit
deriving Repr, DecidableEq

/-- Modelled from the spec: an L2 transaction (signature verification is
external EdDSA crypto; the processor is given txs whose signatures have
been verified). -/
structure L2TxM where
  fromIdx : Nat
  toIdx : Nat
  tokenID : Nat
  amount : Nat
  feeSel : Nat
  nonce : Nat
  maxNumBatch : Nat
  kind : L2Kind
deriving Repr, DecidableEq

/-- The hard-error kinds of L2 processing (any validity failure aborts the
whole batch). -/
inductive TPErr where
  | accountNotFound
  | nonceMismatch
  | maxNumBatchExceeded
  | invalidToIdx
  | tokenMismatch
  | insufficientBalance
deriving Repr, DecidableEq

/-- Modelled from the spec: apply one L2 transaction at the current batch
number: check the nonce strictly, check MaxNumBatch, compute the fee, debit
Amount + fee from the sender and bump its nonce, credit Amount to the
receiver (Transfer, requiring ToIdx at least 256 and equal TokenIDs) or
record an exit (effective ToIdx 1), and accumulate the fee into
CollectedFees. -/
def applyL2Tx (currentBatchNum : Nat) (st : TPState) (tx : L2TxM) :
    Except TPErr TPState :=
  match st.getAccount tx.fromIdx with
  | none => .error .accountNotFound
  | some sender =>
    if tx.nonce ≠ sender.nonce then .error .nonceMismatch
    else if ¬ (tx.maxNumBatch = 0 ∨ currentBatchNum ≤ tx.maxNumBatch) then
      .error .maxNumBatchExceeded
    else
      let fee := feeAmount tx.amount tx.feeSel
      if sender.balance < tx.amount + fee then .error .insufficientBalance
      else
        let st1 := st.setAccount tx.fromIdx
          { sender with balance := sender.balance - (tx.amount + fee),
                        nonce := sender.nonce + 1 }
        let st1 := { st1 with
          collectedFees := fun t =>
            if t = tx.tokenID then st1.collectedFees t + fee else st1.collectedFees t }
        match tx.kind with
        | .transfer =>
          if tx.toIdx < 256 then .error .invalidToIdx
          else
            match st1.getAccount tx.toIdx with
            | none => .error .accountNotFound
            | some receiver =>
              if receiver.tokenID ≠ tx.tokenID then .error .tokenMismatch
              else .ok (st1.setAccount tx.toIdx
                { receiver with balance := receiver.balance + tx.amount })
        | .exit => .ok { st1 with exits := st1.exits ++ [(tx.fromIdx, tx.amount)] }

/-- Modelled from the spec: the fee-distribution step iterates coordIdxs (up
to MaxFeeTx); for each Idx with an account whose TokenID has a positive
collected fee, that amount is credited to the account and the slot is
zeroed. -/
def distributeFees (maxFeeTx : Nat) (coordIdxs : List Nat) (st : TPState) : TPState :=
  (coordIdxs.take maxFeeTx).foldl
    (fun s idx =>
      match s.getAccount idx with
      | none => s
      | some acc =>
        let f := s.collectedFees acc.tokenID
        if 0 < f then
          let s1 := s.setAccount idx { acc with balance := acc.balance + f }
          { s1 with collectedFees := fun t =>
              if t = acc.tokenID then 0 else s1.collectedFees t }
        else s)
    st

/-- Modelled from the spec: ProcessTxs applies, in the fixed order of
section 4.3, the L1 user txs, the L1 coordinator txs, the L2 txs (any L2
validity failure aborts the batch), and then the fee-distribution step over
coordIdxs. -/
def processTxs (currentBatchNum maxFeeTx : Nat) (coordIdxs : List Nat)
    (l1UserTxs l1CoordTxs : List L1TxM) (l2Txs : List L2TxM) (st : TPState) :
    Except TPErr TPState :=
  let st1 := (l1UserTxs ++ l1CoordTxs).foldl applyL1Tx st
  match l2Txs.foldlM (applyL2Tx currentBatchNum) st1 with
  | .error e => .error e
  | .ok st2 => .ok (distributeFees maxFeeTx coordIdxs st2)

/-- The two CreateAccountDeposit L1 user txs of the scenario of claims C1
and C2 (DepositAmount 16000000, TokenID 1); users are numbered 0..3 with
opaque keys. -/
def scenarioCreate (user : Nat) : L1TxM :=
  { fromIdx := 0, toIdx := 0, tokenID := 1, amount := 0,
    depositAmount := 16000000, fromBJJ := 100 + user, fromEthAddr := 200 + user,
    kind := .createAccountDeposit }

/-- The self-transfer L2 tx of claim C1: 256 to 256, Amount 1000,
fee-selector 126, nonce 0. -/
def scenarioL2SelfTransfer : L2TxM :=
  { fromIdx := 256, toIdx := 256, tokenID := 1, amount := 1000,
    feeSel := 126, nonce := 0, maxNumBatch := 0, kind := .transfer }

/-- The CreateAccountDepositTransfer L1 tx of claim C2: DepositAmount
16000000, Amount 1000, ToIdx 258. -/
def scenarioCADT : L1TxM :=
  { fromIdx := 0, toIdx := 258, tokenID := 1, amount := 1000,
    depositAmount := 16000000, fromBJJ := 103, fromEthAddr := 203,
    kind := .createAccountDepositTransfer }

/- ========================= Theorems ===================================== -/

/-- cutStringMax never returns more than max characters. -/
theorem cutStringMax_length_le (s : String) (max : Nat) :
    (cutStringMax s max).length ≤ max := by
  unfold cutStringMax
  split
  · have h : (String.mk (s.toList.take max)).length = (s.toList.take max).length :=
      String.length_mk _
    rw [h]
    simp
  · omega

/-- Claim C8: for every AddToken event processed in a block, a failing
ERC-20 constants probe stores a token record with name "ERC20_ETH_ERROR",
symbol "ERROR" and decimals 1, while a successful probe stores the probed
name truncated to at most 20 characters, the probed symbol truncated to at
most 10 characters, and the probed decimals unmodified. -/
theorem addToken_token_record (erc20 : Nat → Option ERC20Consts) (blockNum : Nat)
    (evt : AddTokenEvent) :
    (erc20 evt.tokenAddress = none →
      processAddToken erc20 blockNum evt =
        { tokenID := evt.tokenID, ethAddr := evt.tokenAddress, ethBlockNum := blockNum,
          name := "ERC20_ETH_ERROR", symbol := "ERROR", decimals := 1 }) ∧
    (∀ c, erc20 evt.tokenAddress = some c →
      (processAddToken erc20 blockNum evt).name = cutStringMax c.name 20 ∧
      (processAddToken erc20 blockNum evt).name.length ≤ 20 ∧
      (processAddToken erc20 blockNum evt).symbol = cutStringMax c.symbol 10 ∧
      (processAddToken erc20 blockNum evt).symbol.length ≤ 10 ∧
      (processAddToken erc20 blockNum evt).decimals = c.decimals ∧
      (processAddToken erc20 blockNum evt).tokenID = evt.tokenID ∧
      (processAddToken erc20 blockNum evt).ethAddr = evt.tokenAddress) := by
  constructor
  · intro h
    unfold processAddToken
    rw [h]
  · intro c h
    unfold processAddToken
    rw [h]
    refine ⟨rfl, cutStringMax_length_le _ _, rfl, cutStringMax_length_le _ _, rfl, rfl, rfl⟩

/-- Witness for C8 at concrete inputs: a failing probe and a succeeding
probe with a 25-character name. -/
theorem addToken_token_record_witness :
    (processAddToken (fun _ => none) 7 { tokenID := 4, tokenAddress := 9 } =
      { tokenID := 4, ethAddr := 9, ethBlockNum := 7,
        name := "ERC20_ETH_ERROR", symbol := "ERROR", decimals := 1 }) ∧
    (processAddToken (fun _ => some ⟨"abcdefghijklmnopqrstuvwxy", "SYMBOLLONGER", 18⟩) 7
        { tokenID := 4, tokenAddress := 9 }).name = "abcdefghijklmnopqrst" ∧
    (processAddToken (fun _ => some ⟨"abcdefghijklmnopqrstuvwxy", "SYMBOLLONGER", 18⟩) 7
        { tokenID := 4, tokenAddress := 9 }).decimals = 18 := by
  refine ⟨(addToken_token_record (fun _ => none) 7 { tokenID := 4, tokenAddress := 9 }).1 rfl,
    ?_, ((addToken_token_record (fun _ => some ⟨"abcdefghijklmnopqrstuvwxy", "SYMBOLLONGER", 18⟩)
      7 { tokenID := 4, tokenAddress := 9 }).2 _ rfl).2.2.2.2.1⟩
  rw [((addToken_token_record (fun _ => some ⟨"abcdefghijklmnopqrstuvwxy", "SYMBOLLONGER", 18⟩)
      7 { tokenID := 4, tokenAddress := 9 }).2 _ rfl).1]
  rfl

/-- Claim C9 (code bug): the draft Synchronizer.Status declares the status
record as a nil pointer and assigns its CurrentBlock field without
initialising it, so every call in which GetLastBlock succeeds dereferences
the nil pointer instead of returning a status record. -/
theorem statusDraft_nil_dereference :
    statusDraft { getLastBlock := .ok 7, getLastBatchNum := .ok 3, ethCurrentBlock := .ok 8 }
      = .nilPointerDereference ∧
    ∀ env : StatusEnv, ∀ n, env.getLastBlock = .ok n →
      statusDraft env = .nilPointerDereference := by
  constructor
  · rfl
  · intro env n h
    unfold statusDraft
    rw [h]

/-- Claim C1: from the empty BatchBuilder state, after the two
CreateAccountDeposit L1 txs (DepositAmount 16000000, TokenID 1) created
accounts 256 and 257, processing the single L2 self-transfer of account 256
(Amount 1000, fee-selector 126, nonce 0) with coordIdxs [257] leaves account
256 with balance 15999899 and nonce 1 and account 257 with balance
16000101: the fee 101 = 1000 × feeTable[126] is debited from the sender
together with the self-transferred amount, accumulated under TokenID 1, and
credited to the coordinator account by the fee-distribution step. -/
theorem zkInputs1_balances :
    feeAmount 1000 126 = 101 ∧
    ((processTxs 1 2 [257] [scenarioCreate 0, scenarioCreate 1] [] [scenarioL2SelfTransfer]
        initTPState).toOption.bind (fun st => (st.getAccount 256).map
          (fun a => (a.balance, a.nonce)))) = some (15999899, 1) ∧
    ((processTxs 1 2 [257] [scenarioCreate 0, scenarioCreate 1] [] [scenarioL2SelfTransfer]
        initTPState).toOption.bind (fun st => (st.getAccount 257).map
          (fun a => (a.balance, a.nonce)))) = some (16000101, 0) ∧
    (([scenarioL2SelfTransfer].foldlM (applyL2Tx 1)
        (([scenarioCreate 0, scenarioCreate 1] ++ []).foldl applyL1Tx initTPState)).toOption.map
          (fun st => (st.collectedFees 1, (st.getAccount 257).map (fun a => a.balance))))
      = some (101, some 16000000) ∧
    ((processTxs 1 2 [257] [scenarioCreate 0, scenarioCreate 1] [] [scenarioL2SelfTransfer]
        initTPState).toOption.map (fun st => st.collectedFees 1)) = some 0 := by
  refine ⟨rfl, ?_, ?_, ?_, ?_⟩ <;> rfl

/-- Claim C2: every L1 CreateAccountDepositTransfer with DepositAmount D,
Amount A ≤ D and ToIdx an existing account of the same TokenID creates a new
account at the next free Idx with balance D - A and credits A to the
account at ToIdx; in the spec's concrete instance (D 16000000, A 1000,
ToIdx 258 after three CreateAccountDeposits) the new account 259 ends the
L1 phase with balance 15999000 and 258's balance grows by exactly 1000
(16000000 to 16001000). -/
theorem createAccountDepositTransfer_spec :
    (∀ (st : TPState) (tx : L1TxM) (accTo : Account),
      tx.kind = .createAccountDepositTransfer →
      st.hasTriple (tx.fromEthAddr, tx.fromBJJ, tx.tokenID) = false →
      st.getAccount tx.toIdx = some accTo →
      accTo.tokenID = tx.tokenID →
      tx.amount ≤ tx.depositAmount →
      tx.toIdx ≠ st.lastIdx + 1 →
      (applyL1Tx st tx).lastIdx = st.lastIdx + 1 ∧
      (applyL1Tx st tx).getAccount (st.lastIdx + 1) =
        some { tokenID := tx.tokenID, nonce := 0, balance := tx.depositAmount - tx.amount,
               bjj := tx.fromBJJ, ethAddr := tx.fromEthAddr } ∧
      (applyL1Tx st tx).getAccount tx.toIdx =
        some { accTo with balance := accTo.balance + tx.amount }) ∧
    (((([scenarioCreate 0, scenarioCreate 1, scenarioCreate 2, scenarioCADT]).foldl applyL1Tx
        initTPState).getAccount 259).map (fun a => a.balance) = some 15999000 ∧
     ((([scenarioCreate 0, scenarioCreate 1, scenarioCreate 2, scenarioCADT]).foldl applyL1Tx
        initTPState).getAccount 258).map (fun a => a.balance) = some 16001000 ∧
     ((([scenarioCreate 0, scenarioCreate 1, scenarioCreate 2]).foldl applyL1Tx
        initTPState).getAccount 258).map (fun a => a.balance) = some 16000000) := by
  constructor
  · intro st tx accTo hkind htriple hacc htok hamt hne
    unfold applyL1Tx
    rw [hkind]
    simp only [htriple, Bool.false_eq_true, if_false]
    have hgetTo : ((st.createAccount
        { tokenID := tx.tokenID, nonce := 0, balance := tx.depositAmount,
          bjj := tx.fromBJJ, ethAddr := tx.fromEthAddr }).1).getAccount tx.toIdx
        = some accTo := by
      unfold TPState.createAccount TPState.getAccount
      simp only
      rw [if_neg hne]
      exact hacc
    rw [hgetTo]
    simp only [TPState.createAccount, htok, hamt, hne, ne_eq, not_false_iff, and_true,
      true_and, if_true]
    refine ⟨rfl, ?_, ?_⟩
    · unfold TPState.getAccount TPState.setAccount
      simp
      intro h
      exact absurd h.symm hne
    · unfold TPState.getAccount TPState.setAccount
      simp [htok]
  · refine ⟨rfl, rfl, rfl⟩

/-- Witness for C2: the general statement applied to the concrete scenario
state (after the three CreateAccountDeposits) and the concrete
CreateAccountDepositTransfer tx. -/
theorem createAccountDepositTransfer_spec_witness :
    (applyL1Tx (([scenarioCreate 0, scenarioCreate 1, scenarioCreate 2]).foldl applyL1Tx
        initTPState) scenarioCADT).getAccount 259 =
      some { tokenID := 1, nonce := 0, balance := 15999000, bjj := 103, ethAddr := 203 } ∧
    (applyL1Tx (([scenarioCreate 0, scenarioCreate 1, scenarioCreate 2]).foldl applyL1Tx
        initTPState) scenarioCADT).getAccount 258 =
      some { tokenID := 1, nonce := 0, balance := 16001000, bjj := 102, ethAddr := 202 } := by
  have h := (createAccountDepositTransfer_spec).1
    (([scenarioCreate 0, scenarioCreate 1, scenarioCreate 2]).foldl applyL1Tx initTPState)
    scenarioCADT
    { tokenID := 1, nonce := 0, balance := 16000000, bjj := 102, ethAddr := 202 }
    rfl rfl rfl rfl (by decide) (by decide)
  exact ⟨h.2.1, h.2.2⟩

/-- Claim C6: the L1 user-tx queue bookkeeping of the test harness keeps its
invariants under every operation: the single open-to-forge queue is always
the last queue of the array (with the toForge pointer strictly before it),
no queue ever exceeds maxL1UserTx entries (for a positive cap), appending a
tx to a full open queue first opens a new empty queue and places the tx
there, and when an L1 batch advance makes the toForge index reach the
open-to-forge index a fresh empty open queue is appended. -/
theorem l1Queue_invariants (α : Type) (maxL1UserTx : Nat) (hmax : 1 ≤ maxL1UserTx)
    (st : L1QueueState α) (tx : α) (hinv : QueueInv maxL1UserTx st) :
    QueueInv maxL1UserTx (initQueueState α) ∧
    QueueInv maxL1UserTx (addToL1Queue maxL1UserTx st tx) ∧
    QueueInv maxL1UserTx (advanceL1Batch st) ∧
    (maxL1UserTx ≤ (st.queues.getD st.openToForge []).length →
      (addToL1Queue maxL1UserTx st tx).openToForge = st.openToForge + 1 ∧
      (addToL1Queue maxL1UserTx st tx).queues.getD (st.openToForge + 1) [] = [tx] ∧
      (addToL1Queue maxL1UserTx st tx).queues.length = st.queues.length + 1) ∧
    (st.toForgeNum + 1 = st.openToForge →
      (advanceL1Batch st).toForgeNum = st.toForgeNum + 1 ∧
      (advanceL1Batch st).openToForge = st.openToForge + 1 ∧
      (advanceL1Batch st).queues = st.queues ++ [[]]) := by
  obtain ⟨h1, h2, h3⟩ := hinv
  have hgetD : (st.queues ++ [[]]).getD st.queues.length [] = ([] : List α) := by
    simp [List.getD]
  refine ⟨?_, ?_, ?_, ?_, ?_⟩
  · refine ⟨rfl, Nat.zero_lt_one, ?_⟩
    intro q hq
    simp only [initQueueState, List.mem_cons, List.not_mem_nil, or_false] at hq
    rcases hq with h | h <;> simp [h]
  · unfold addToL1Queue
    dsimp only
    split
    · have hidx : st.openToForge + 1 = st.queues.length := h1
      refine ⟨?_, by dsimp only; omega, ?_⟩
      · dsimp only
        simp [List.length_set, List.length_append]
        omega
      · intro q hq
        dsimp only at hq
        rcases List.mem_or_eq_of_mem_set hq with hq2 | hq2
        · rcases List.mem_append.mp hq2 with hq3 | hq3
          · exact h3 q hq3
          · simp only [List.mem_singleton] at hq3
            simp [hq3]
        · rw [hq2, hidx, hgetD]
          simpa using hmax
    · refine ⟨?_, by dsimp only; omega, ?_⟩
      · dsimp only
        simp [List.length_set]
        omega
      · intro q hq
        dsimp only at hq
        rcases List.mem_or_eq_of_mem_set hq with hq2 | hq2
        · exact h3 q hq2
        · rw [hq2]
          have hlt : ¬ maxL1UserTx ≤ (st.queues.getD st.openToForge []).length := by
            assumption
          simp only [List.length_append, List.length_singleton]
          omega
  · unfold advanceL1Batch
    dsimp only
    split
    · refine ⟨?_, by dsimp only; omega, ?_⟩
      · dsimp only
        simp only [List.length_append, List.length_singleton]
        omega
      · intro q hq
        dsimp only at hq
        rcases List.mem_append.mp hq with hq2 | hq2
        · exact h3 q hq2
        · simp only [List.mem_singleton] at hq2
          simp [hq2]
    · have hne : ¬ st.toForgeNum + 1 = st.openToForge := by assumption
      exact ⟨h1, by dsimp only; omega, h3⟩
  · intro hfull
    unfold addToL1Queue
    dsimp only
    rw [if_pos hfull]
    dsimp only
    refine ⟨rfl, ?_, ?_⟩
    · have hidx : st.openToForge + 1 = st.queues.length := h1
      have hlen : st.openToForge + 1 < (st.queues ++ [[]]).length := by
        simp only [List.length_append, List.length_singleton]
        omega
      rw [hidx, hgetD]
      simp [List.getD, List.getElem?_set_self', hidx ▸ hlen]
    · simp [List.length_set, List.length_append]
  · intro hreach
    unfold advanceL1Batch
    dsimp only
    rw [if_pos hreach]
    exact ⟨rfl, rfl, rfl⟩

/-- Witness for C6: the invariant theorem applied to the initial queue state
with cap 2; the batch advance from the initial state appends a fresh open
queue. -/
theorem l1Queue_invariants_witness :
    QueueInv 2 (addToL1Queue 2 (initQueueState Nat) 5) ∧
    (advanceL1Batch (initQueueState Nat)).queues = [[], []] ++ [[]] ∧
    (advanceL1Batch (initQueueState Nat)).openToForge = 2 := by
  have h := l1Queue_invariants Nat 2 (by decide) (initQueueState Nat) 5
    ⟨rfl, Nat.zero_lt_one, by
      intro q hq
      simp only [initQueueState, List.mem_cons, List.not_mem_nil, or_false] at hq
      rcases hq with h | h <;> simp [h]⟩
  exact ⟨h.2.1, (h.2.2.2.2 rfl).2.2, (h.2.2.2.2 rfl).2.1⟩

/-- calculateIdxForL1Txs assigns the consecutive Idx block starting at the
incoming counter: the counter advances by the number of created accounts and
the assignment log is extended by exactly that consecutive range. -/
theorem calcIdx_range (txs : List TestL1Tx) :
    ∀ ctx ctx2, calculateIdxForL1Txs ctx txs = some ctx2 →
      ∃ k, ctx2.idx = ctx.idx + k ∧
        ctx2.assignedLog = ctx.assignedLog ++ List.range' ctx.idx k := by
  induction txs with
  | nil =>
    intro ctx ctx2 h
    unfold calculateIdxForL1Txs at h
    cases h
    exact ⟨0, by simp⟩
  | cons tx txs ih =>
    intro ctx ctx2 h
    unfold calculateIdxForL1Txs at h
    split at h
    · cases hl : lookupAccountIdx ctx (tx.fromName, tx.tokenID) with
      | some v => rw [hl] at h; cases h
      | none =>
        rw [hl] at h
        obtain ⟨k, hidx, hlog⟩ := ih _ _ h
        refine ⟨k + 1, by simp at hidx ⊢; omega, ?_⟩
        rw [hlog]
        simp only [List.append_assoc, List.singleton_append]
        have hr : List.range' ctx.idx (k + 1) = ctx.idx :: List.range' (ctx.idx + 1) k :=
          List.range'_succ ctx.idx k 1
        rw [hr]
    · exact ih _ _ h

/-- Claim C7: across an entire generated chain history (any sequence of tx
groups run through calculateIdxForL1Txs), the Idx values of created accounts
are assigned strictly sequentially starting at 256 with no gaps: the
assignment log is exactly 256, 257, ... and the counter always equals 256
plus the number of creations so far. -/
theorem idx_assignment_sequential (hist : List (List TestL1Tx)) (ctx2 : IdxCtx)
    (h : runIdxHistory initIdxCtx hist = some ctx2) :
    ctx2.assignedLog = List.range' 256 ctx2.assignedLog.length ∧
    ctx2.idx = 256 + ctx2.assignedLog.length ∧
    ∀ i, ∀ hi : i < ctx2.assignedLog.length, ctx2.assignedLog.get ⟨i, hi⟩ = 256 + i := by
  have hgen : ∀ (gs : List (List TestL1Tx)) (c c2 : IdxCtx), runIdxHistory c gs = some c2 →
      ∃ k, c2.idx = c.idx + k ∧ c2.assignedLog = c.assignedLog ++ List.range' c.idx k := by
    intro gs
    induction gs with
    | nil =>
      intro c c2 hrun
      unfold runIdxHistory at hrun
      cases hrun
      exact ⟨0, by simp⟩
    | cons g gs ih =>
      intro c c2 hrun
      unfold runIdxHistory at hrun
      cases hcalc : calculateIdxForL1Txs c g with
      | none => rw [hcalc] at hrun; cases hrun
      | some cmid =>
        rw [hcalc] at hrun
        obtain ⟨k1, hk1i, hk1l⟩ := calcIdx_range g c cmid hcalc
        obtain ⟨k2, hk2i, hk2l⟩ := ih cmid c2 hrun
        refine ⟨k1 + k2, by omega, ?_⟩
        rw [hk2l, hk1l, hk1i]
        rw [List.append_assoc]
        have := List.range'_append c.idx k1 k2 1
        simp only [one_mul] at this
        rw [this]
        rw [Nat.add_comm k2 k1]
  obtain ⟨k, hki, hkl⟩ := hgen hist initIdxCtx ctx2 h
  simp only [initIdxCtx, List.nil_append] at hki hkl
  have hlen : ctx2.assignedLog.length = k := by rw [hkl, List.length_range']
  refine ⟨by rw [hlen, hkl], by rw [hlen]; exact hki, ?_⟩
  intro i hi
  have hik : i < (List.range' 256 k).length := by
    rw [List.length_range']
    omega
  have h1 : ctx2.assignedLog.get ⟨i, hi⟩ = (List.range' 256 k).get ⟨i, hik⟩ := by
    have := List.get_of_eq hkl ⟨i, hi⟩
    rw [this]
  rw [h1]
  simp only [List.get_eq_getElem]
  rw [List.getElem_range']
  omega

/-- Witness for C7: the sample two-block history creating three accounts
yields the assignment log 256, 257, 258 with the counter at 259. -/
theorem idx_assignment_sequential_witness :
    ({ accounts := [(("A", 2), 258), (("B", 1), 257), (("A", 1), 256)], idx := 259,
       assignedLog := [256, 257, 258] } : IdxCtx).assignedLog =
      List.range' 256 ([256, 257, 258] : List Nat).length ∧
    ({ accounts := [(("A", 2), 258), (("B", 1), 257), (("A", 1), 256)], idx := 259,
       assignedLog := [256, 257, 258] } : IdxCtx).idx =
      256 + ([256, 257, 258] : List Nat).length := by
  have hrun : runIdxHistory initIdxCtx sampleIdxHistory =
      some { accounts := [(("A", 2), 258), (("B", 1), 257), (("A", 1), 256)], idx := 259,
             assignedLog := [256, 257, 258] } := rfl
  have h := idx_assignment_sequential sampleIdxHistory _ hrun
  exact ⟨h.1, h.2.1⟩

/-- Counterexample to C10 as stated: with two pool txs (fees 2 and 1,
nonces 5 and 3) and max 3, the input is shorter than max, so getL2Profitable
returns the fee-sorted list with nonces 5, 3, which is not sorted by Nonce
in non-decreasing order. -/
theorem getL2Profitable_nonce_unsorted :
    getL2Profitable [⟨256, 257, 10, 5, 2⟩, ⟨256, 257, 10, 3, 1⟩] 3 =
      [⟨256, 257, 10, 5, 2⟩, ⟨256, 257, 10, 3, 1⟩] ∧
    ¬ (getL2Profitable [⟨256, 257, 10, 5, 2⟩, ⟨256, 257, 10, 3, 1⟩] 3).Sorted
        (fun a b => a.nonce ≤ b.nonce) := by
  have h : getL2Profitable [⟨256, 257, 10, 5, 2⟩, ⟨256, 257, 10, 3, 1⟩] 3 =
      [⟨256, 257, 10, 5, 2⟩, ⟨256, 257, 10, 3, 1⟩] := by
    simp [getL2Profitable, sortByFeeDesc, List.mergeSort]
  refine ⟨h, ?_⟩
  rw [h]
  decide

/-- Claim C10 (amended): getL2Profitable returns a list of length
min(len(input), max) whose elements are all drawn from the input; when the
input has at least max txs the result consists of max transactions of
highest AbsoluteFee and is sorted by Nonce in non-decreasing order; when the
input is shorter than max the result is the whole input sorted by
AbsoluteFee in non-increasing order (not by Nonce). -/
theorem getL2Profitable_spec (txs : List PoolTx) (max : Nat) :
    (getL2Profitable txs max).length = min txs.length max ∧
    (getL2Profitable txs max).Subperm txs ∧
    (max ≤ txs.length →
      (getL2Profitable txs max).Sorted (fun a b => a.nonce ≤ b.nonce) ∧
      ∃ rest, txs.Perm (getL2Profitable txs max ++ rest) ∧
        ∀ x ∈ getL2Profitable txs max, ∀ y ∈ rest, y.absoluteFee ≤ x.absoluteFee) ∧
    (txs.length < max →
      getL2Profitable txs max = sortByFeeDesc txs ∧
      (getL2Profitable txs max).Sorted (fun a b => b.absoluteFee ≤ a.absoluteFee)) := by
  have hfeeTrans : ∀ a b c : PoolTx,
      decide (b.absoluteFee ≤ a.absoluteFee) = true →
      decide (c.absoluteFee ≤ b.absoluteFee) = true →
      decide (c.absoluteFee ≤ a.absoluteFee) = true := by
    intro a b c h1 h2
    simp only [decide_eq_true_eq] at h1 h2 ⊢
    omega
  have hfeeTotal : ∀ a b : PoolTx,
      (decide (b.absoluteFee ≤ a.absoluteFee) || decide (a.absoluteFee ≤ b.absoluteFee))
        = true := by
    intro a b
    simp only [Bool.or_eq_true, decide_eq_true_eq]
    omega
  have hnonceTrans : ∀ a b c : PoolTx,
      decide (a.nonce ≤ b.nonce) = true → decide (b.nonce ≤ c.nonce) = true →
      decide (a.nonce ≤ c.nonce) = true := by
    intro a b c h1 h2
    simp only [decide_eq_true_eq] at h1 h2 ⊢
    omega
  have hnonceTotal : ∀ a b : PoolTx,
      (decide (a.nonce ≤ b.nonce) || decide (b.nonce ≤ a.nonce)) = true := by
    intro a b
    simp only [Bool.or_eq_true, decide_eq_true_eq]
    omega
  have hperm : (sortByFeeDesc txs).Perm txs := List.mergeSort_perm txs _
  have hlen : (sortByFeeDesc txs).length = txs.length := List.length_mergeSort txs
  have hsorted : (sortByFeeDesc txs).Pairwise
      (fun a b => decide (b.absoluteFee ≤ a.absoluteFee) = true) :=
    List.sorted_mergeSort hfeeTrans hfeeTotal txs
  by_cases hc : txs.length < max
  · have hres : getL2Profitable txs max = sortByFeeDesc txs := by
      unfold getL2Profitable
      rw [if_pos (by rw [hlen]; exact hc)]
    refine ⟨?_, ?_, ?_, ?_⟩
    · rw [hres, hlen]
      omega
    · rw [hres]
      exact hperm.subperm
    · intro h
      omega
    · intro _
      refine ⟨hres, ?_⟩
      rw [hres]
      exact hsorted.imp (fun h => by simpa using h)
  · have hres : getL2Profitable txs max = sortByNonce ((sortByFeeDesc txs).take max) := by
      unfold getL2Profitable
      rw [if_neg (by rw [hlen]; exact hc)]
    have hpermTake : (getL2Profitable txs max).Perm ((sortByFeeDesc txs).take max) := by
      rw [hres]
      exact List.mergeSort_perm _ _
    refine ⟨?_, ?_, ?_, ?_⟩
    · rw [hpermTake.length_eq, List.length_take, hlen]
      omega
    · exact (hpermTake.subperm.trans (List.take_sublist _ _).subperm).trans hperm.subperm
    · intro _
      constructor
      · rw [hres]
        exact (List.sorted_mergeSort hnonceTrans hnonceTotal _).imp (fun h => by simpa using h)
      · refine ⟨(sortByFeeDesc txs).drop max, ?_, ?_⟩
        · have h1 : txs.Perm ((sortByFeeDesc txs).take max ++ (sortByFeeDesc txs).drop max) := by
            rw [List.take_append_drop]
            exact hperm.symm
          exact h1.trans (List.Perm.append_right _ hpermTake.symm)
        · intro x hx y hy
          have hx2 : x ∈ (sortByFeeDesc txs).take max := hpermTake.mem_iff.mp hx
          have hpa : ((sortByFeeDesc txs).take max ++ (sortByFeeDesc txs).drop max).Pairwise
              (fun a b => decide (b.absoluteFee ≤ a.absoluteFee) = true) := by
            rw [List.take_append_drop]
            exact hsorted
          have := (List.pairwise_append.mp hpa).2.2 x hx2 y hy
          simpa using this
    · intro h
      omega

/-- Witness for C10: the amended statement applied at max 1 over a
two-element list (the truncating branch, nonce-sorted result) and at max 3
over a one-element list (the short branch, fee-sorted result). -/
theorem getL2Profitable_spec_witness :
    (getL2Profitable [⟨256, 257, 10, 5, 2⟩, ⟨256, 257, 10, 3, 1⟩] 1).Sorted
      (fun a b => a.nonce ≤ b.nonce) ∧
    getL2Profitable [⟨256, 257, 10, 3, 1⟩] 3 = sortByFeeDesc [⟨256, 257, 10, 3, 1⟩] := by
  exact ⟨((getL2Profitable_spec [⟨256, 257, 10, 5, 2⟩, ⟨256, 257, 10, 3, 1⟩] 1).2.2.1
      (by decide)).1,
    ((getL2Profitable_spec [⟨256, 257, 10, 3, 1⟩] 3).2.2.2 (by decide)).1⟩

/-- rollupSync can only fail with the block-hash-mismatch error. -/
theorem rollupSync_error_eq (env : SyncEnv) (b : Block) (e : SyncErr)
    (h : rollupSync env b = .error e) : e = .blockHashMismatch := by
  unfold rollupSync at h
  cases hev : env.rollupEventsByBlock b.num with
  | mk fst snd =>
    rw [hev] at h
    cases fst with
    | none => cases h
    | some hh =>
      dsimp only at h
      split at h
      · cases h
      · cases h
        rfl

/-- auctionSync can only fail with the block-hash-mismatch error. -/
theorem auctionSync_error_eq (env : SyncEnv) (b : Block) (e : SyncErr)
    (h : auctionSync env b = .error e) : e = .blockHashMismatch := by
  unfold auctionSync at h
  cases hev : env.auctionEventsByBlock b.num with
  | mk fst snd =>
    rw [hev] at h
    cases fst with
    | none => cases h
    | some hh =>
      dsimp only at h
      split at h
      · cases h
      · cases h
        rfl

/-- A mismatching tagged rollup stream makes rollupSync fail. -/
theorem rollupSync_mismatch (env : SyncEnv) (b : Block) (hh : Nat) (evts : RollupEvents)
    (hev : env.rollupEventsByBlock b.num = (some hh, evts)) (hne : hh ≠ b.hash) :
    rollupSync env b = .error .blockHashMismatch := by
  unfold rollupSync
  rw [hev]
  dsimp only
  rw [if_neg hne]

/-- A mismatching tagged auction stream makes auctionSync fail. -/
theorem auctionSync_mismatch (env : SyncEnv) (b : Block) (hh : Nat) (evts : AuctionEvents)
    (hev : env.auctionEventsByBlock b.num = (some hh, evts)) (hne : hh ≠ b.hash) :
    auctionSync env b = .error .blockHashMismatch := by
  unfold auctionSync
  rw [hev]
  dsimp only
  rw [if_neg hne]

/-- A mismatching tagged withdrawal-delayer stream makes wdelayerSync
fail. -/
theorem wdelayerSync_mismatch (env : SyncEnv) (b : Block) (hh : Nat) (evts : WDelayerEvents)
    (hev : env.wdelayerEventsByBlock b.num = (some hh, evts)) (hne : hh ≠ b.hash) :
    wdelayerSync env b = .error .blockHashMismatch := by
  unfold wdelayerSync
  rw [hev]
  dsimp only
  rw [if_neg hne]

/-- Under a matching parent hash, sync2 reduces to the three event-stream
fetches followed by the pairing and the persist step. -/
theorem sync2_reach (env : SyncEnv) (db : HistoryDB) (B : Block)
    (hstart : env.startBlockNum ≤ db.lastBlock.num)
    (hchain : env.chain (db.lastBlock.num + 1) = some B)
    (hparent : db.lastBlock.hash = B.parentHash) :
    sync2 env db =
      match rollupSync env B with
      | .error e => .errored e
      | .ok rd =>
        match auctionSync env B with
        | .error e => .errored e
        | .ok ad =>
          match wdelayerSync env B with
          | .error e => .errored e
          | .ok wd =>
            match pairWithdrawals wd.depositsByTxHash rd.withdrawals with
            | .error e => .errored e
            | .ok (ws2, m2) =>
              let bd : BlockData :=
                { block := B,
                  rollup := { rd with withdrawals := ws2 },
                  auction := ad,
                  wdelayer := { deposits := wd.deposits, depositsByTxHash := m2 } }
              .synced bd (db.addBlock bd) := by
  unfold sync2
  rw [if_neg (by omega), hchain]
  dsimp only
  rw [if_neg (by simp [hparent])]

/-- Claim C4: for each of the three per-block event streams, a reported
non-nil block hash different from the block's hash aborts the whole Sync
call with the block-hash-mismatch error (persisting nothing for the block),
while a nil reported hash makes the stream contribute empty data; when all
three report nil, the block is synced with empty stream sections. -/
theorem eventStream_hash_gate (env : SyncEnv) (db : HistoryDB) (B : Block)
    (hstart : env.startBlockNum ≤ db.lastBlock.num)
    (hchain : env.chain (db.lastBlock.num + 1) = some B)
    (hparent : db.lastBlock.hash = B.parentHash) :
    (((∃ h evts, env.rollupEventsByBlock B.num = (some h, evts) ∧ h ≠ B.hash) ∨
      (∃ h evts, env.auctionEventsByBlock B.num = (some h, evts) ∧ h ≠ B.hash) ∨
      (∃ h evts, env.wdelayerEventsByBlock B.num = (some h, evts) ∧ h ≠ B.hash)) →
      sync2 env db = .errored .blockHashMismatch) ∧
    ((env.rollupEventsByBlock B.num).1 = none → rollupSync env B = .ok emptyRollupData) ∧
    ((env.auctionEventsByBlock B.num).1 = none → auctionSync env B = .ok emptyAuctionData) ∧
    ((env.wdelayerEventsByBlock B.num).1 = none →
      wdelayerSync env B = .ok emptyWDelayerData) ∧
    ((env.rollupEventsByBlock B.num).1 = none ∧ (env.auctionEventsByBlock B.num).1 = none ∧
      (env.wdelayerEventsByBlock B.num).1 = none →
      sync2 env db = .synced
        { block := B, rollup := emptyRollupData, auction := emptyAuctionData,
          wdelayer := emptyWDelayerData }
        (db.addBlock
          { block := B, rollup := emptyRollupData, auction := emptyAuctionData,
            wdelayer := emptyWDelayerData })) := by
  have hreach := sync2_reach env db B hstart hchain hparent
  have hnoneRollup : (env.rollupEventsByBlock B.num).1 = none →
      rollupSync env B = .ok emptyRollupData := by
    intro hn
    unfold rollupSync
    cases hev : env.rollupEventsByBlock B.num with
    | mk fst snd =>
      rw [hev] at hn
      dsimp only at hn
      rw [hn]
  have hnoneAuction : (env.auctionEventsByBlock B.num).1 = none →
      auctionSync env B = .ok emptyAuctionData := by
    intro hn
    unfold auctionSync
    cases hev : env.auctionEventsByBlock B.num with
    | mk fst snd =>
      rw [hev] at hn
      dsimp only at hn
      rw [hn]
  have hnoneWDelayer : (env.wdelayerEventsByBlock B.num).1 = none →
      wdelayerSync env B = .ok emptyWDelayerData := by
    intro hn
    unfold wdelayerSync
    cases hev : env.wdelayerEventsByBlock B.num with
    | mk fst snd =>
      rw [hev] at hn
      dsimp only at hn
      rw [hn]
  refine ⟨?_, hnoneRollup, hnoneAuction, hnoneWDelayer, ?_⟩
  · intro hdisj
    rw [hreach]
    rcases hdisj with ⟨hh, evts, hev, hne⟩ | ⟨hh, evts, hev, hne⟩ | ⟨hh, evts, hev, hne⟩
    · rw [rollupSync_mismatch env B hh evts hev hne]
    · cases hro : rollupSync env B with
      | error e => rw [rollupSync_error_eq env B e hro]
      | ok rd => rw [auctionSync_mismatch env B hh evts hev hne]
    · cases hro : rollupSync env B with
      | error e => rw [rollupSync_error_eq env B e hro]
      | ok rd =>
        cases hau : auctionSync env B with
        | error e => rw [auctionSync_error_eq env B e hau]
        | ok ad => rw [wdelayerSync_mismatch env B hh evts hev hne]
  · intro ⟨hn1, hn2, hn3⟩
    rw [hreach, hnoneRollup hn1, hnoneAuction hn2, hnoneWDelayer hn3]
    rfl

/-- Witness for C4: a concrete environment whose auction stream reports a
wrong hash aborts the Sync call; a concrete all-nil environment syncs the
block with empty stream sections. -/
theorem eventStream_hash_gate_witness :
    sync2
      { startBlockNum := 0,
        chain := fun n => if n = 3 then some ⟨3, 30, 20⟩ else none,
        rollupEventsByBlock := fun _ => (none, ⟨[], []⟩),
        auctionEventsByBlock := fun _ => (some 99, ⟨[]⟩),
        wdelayerEventsByBlock := fun _ => (none, ⟨[]⟩),
        erc20Consts := fun _ => none }
      { blocks := fun n => if n = 2 then some ⟨2, 20, 10⟩ else none,
        lastBlock := ⟨2, 20, 10⟩, batchNumAt := fun _ => 0, scVarsAt := fun _ => 0 }
      = .errored .blockHashMismatch ∧
    sync2
      { startBlockNum := 0,
        chain := fun n => if n = 3 then some ⟨3, 30, 20⟩ else none,
        rollupEventsByBlock := fun _ => (none, ⟨[], []⟩),
        auctionEventsByBlock := fun _ => (none, ⟨[]⟩),
        wdelayerEventsByBlock := fun _ => (none, ⟨[]⟩),
        erc20Consts := fun _ => none }
      { blocks := fun n => if n = 2 then some ⟨2, 20, 10⟩ else none,
        lastBlock := ⟨2, 20, 10⟩, batchNumAt := fun _ => 0, scVarsAt := fun _ => 0 }
      = .synced
        { block := ⟨3, 30, 20⟩, rollup := emptyRollupData, auction := emptyAuctionData,
          wdelayer := emptyWDelayerData }
        (HistoryDB.addBlock
          { blocks := fun n => if n = 2 then some ⟨2, 20, 10⟩ else none,
            lastBlock := ⟨2, 20, 10⟩, batchNumAt := fun _ => 0, scVarsAt := fun _ => 0 }
          { block := ⟨3, 30, 20⟩, rollup := emptyRollupData, auction := emptyAuctionData,
            wdelayer := emptyWDelayerData }) := by
  constructor
  · exact (eventStream_hash_gate _ _ ⟨3, 30, 20⟩ (by decide) rfl rfl).1
      (Or.inr (Or.inl ⟨99, ⟨[]⟩, rfl, by decide⟩))
  · exact (eventStream_hash_gate _ _ ⟨3, 30, 20⟩ (by decide) rfl rfl).2.2.2.2 ⟨rfl, rfl, rfl⟩

/-- The backward walk of reorg stops exactly at the greatest height whose
stored and chain hashes agree: if every height in (H, H+n] disagrees and H
agrees, the walk started at H+n returns the stored block at H. -/
theorem reorgFind_found (env : SyncEnv) (db : HistoryDB) (H : Nat) (sb cb : Block)
    (hsb : db.blocks H = some sb) (hcb : env.chain H = some cb)
    (hmatch : sb.hash = cb.hash) (hstart : env.startBlockNum ≤ H) :
    ∀ n, (∀ k, H < k → k ≤ H + n →
        ∃ sbk cbk, db.blocks k = some sbk ∧ env.chain k = some cbk ∧ sbk.hash ≠ cbk.hash) →
      reorgFind env db (H + n) = .ok sb := by
  intro n
  induction n with
  | zero =>
    intro _
    unfold reorgFind
    dsimp only
    simp only [Nat.add_zero]
    rw [hcb, hsb]
    dsimp only
    rw [if_pos hmatch]
  | succ m ih =>
    intro habove
    obtain ⟨sbk, cbk, hsbk, hcbk, hne⟩ := habove (H + (m + 1)) (by omega) (by omega)
    unfold reorgFind
    dsimp only
    rw [hcbk, hsbk]
    dsimp only
    rw [if_neg hne, dif_pos (show env.startBlockNum < H + (m + 1) by omega)]
    have hsub : H + (m + 1) - 1 = H + m := by omega
    rw [hsub]
    exact ih (fun k h1 h2 => habove k h1 (by omega))

/-- Claim C3: when the fetched block's parent hash differs from the stored
last block's hash, Sync2 persists nothing for that block; it walks backward
to the greatest height H whose stored and chain hashes agree, truncates the
HistoryDB at H, resets the StateDB to the batch number current at H
restoring the variable snapshot at H, and reports the reorg as the
discarded-block count lastSavedBlock.num - H, not as an error. -/
theorem reorg_protocol (env : SyncEnv) (db : HistoryDB) (B : Block) (H : Nat) (sb cb : Block)
    (hstart : env.startBlockNum ≤ db.lastBlock.num)
    (hchain : env.chain (db.lastBlock.num + 1) = some B)
    (hmismatch : db.lastBlock.hash ≠ B.parentHash)
    (hHstart : env.startBlockNum ≤ H) (hHle : H ≤ db.lastBlock.num)
    (hsb : db.blocks H = some sb) (hsbnum : sb.num = H)
    (hcb : env.chain H = some cb) (hmatch : sb.hash = cb.hash)
    (habove : ∀ k, H < k → k ≤ db.lastBlock.num →
      ∃ sbk cbk, db.blocks k = some sbk ∧ env.chain k = some cbk ∧ sbk.hash ≠ cbk.hash) :
    sync2 env db = .reorged (db.lastBlock.num - H) (db.truncate sb)
      (db.batchNumAt H) (db.scVarsAt H) := by
  have hfind : reorgFind env db db.lastBlock.num = .ok sb := by
    have hn : db.lastBlock.num = H + (db.lastBlock.num - H) := by omega
    rw [hn]
    exact reorgFind_found env db H sb cb hsb hcb hmatch hHstart (db.lastBlock.num - H)
      (fun k h1 h2 => habove k h1 (by omega))
  unfold sync2
  rw [if_neg (by omega), hchain]
  dsimp only
  rw [if_pos hmismatch]
  unfold reorg
  rw [hfind]
  dsimp only
  rw [hsbnum]

/-- Witness for C3: a concrete chain whose block 3 has a foreign parent hash
while height 2 still agrees; the Sync call reorgs with zero discarded
blocks, truncating at 2. -/
theorem reorg_protocol_witness :
    sync2
      { startBlockNum := 0,
        chain := fun n => if n = 3 then some ⟨3, 30, 99⟩ else
          if n = 2 then some ⟨2, 20, 10⟩ else none,
        rollupEventsByBlock := fun _ => (none, ⟨[], []⟩),
        auctionEventsByBlock := fun _ => (none, ⟨[]⟩),
        wdelayerEventsByBlock := fun _ => (none, ⟨[]⟩),
        erc20Consts := fun _ => none }
      { blocks := fun n => if n = 2 then some ⟨2, 20, 10⟩ else none,
        lastBlock := ⟨2, 20, 10⟩, batchNumAt := fun n => n, scVarsAt := fun n => n }
      = .reorged 0
        (HistoryDB.truncate
          { blocks := fun n => if n = 2 then some ⟨2, 20, 10⟩ else none,
            lastBlock := ⟨2, 20, 10⟩, batchNumAt := fun n => n, scVarsAt := fun n => n }
          ⟨2, 20, 10⟩) 2 2 := by
  exact reorg_protocol _ _ ⟨3, 30, 99⟩ 2 ⟨2, 20, 10⟩ ⟨2, 20, 10⟩ (by decide) rfl (by decide)
    (by decide) (by decide) rfl rfl rfl rfl (fun k h1 h2 => absurd (Nat.lt_of_lt_of_le h1 h2)
      (lt_irrefl 2))

/-- consumedBy on the empty list. -/
theorem consumedBy_nil (h : Nat) : consumedBy [] h = 0 := rfl

/-- A head withdrawal that is instant, or carries another tx hash, consumes
nothing. -/
theorem consumedBy_cons_skip (w : WithdrawInfo) (ws : List WithdrawInfo) (h : Nat)
    (hw : ¬ (w.instantWithdraw = false ∧ w.txHash = h)) :
    consumedBy (w :: ws) h = consumedBy ws h := by
  unfold consumedBy
  rw [List.filter_cons]
  have : (!w.instantWithdraw && decide (w.txHash = h)) = false := by
    rcases Bool.eq_false_or_eq_true w.instantWithdraw with h1 | h1
    · simp [h1]
    · have h2 : w.txHash ≠ h := fun hc => hw ⟨h1, hc⟩
      simp [h2]
  rw [this]
  simp

/-- A non-instant head withdrawal with the matching tx hash consumes one
deposit. -/
theorem consumedBy_cons_hit (w : WithdrawInfo) (ws : List WithdrawInfo) (h : Nat)
    (h1 : w.instantWithdraw = false) (h2 : w.txHash = h) :
    consumedBy (w :: ws) h = consumedBy ws h + 1 := by
  unfold consumedBy
  rw [List.filter_cons]
  have : (!w.instantWithdraw && decide (w.txHash = h)) = true := by
    simp [h1, h2]
  rw [this]
  simp [Nat.add_comm]

/-- The pairing loop can only fail with the missing-deposit error. -/
theorem pairWithdrawals_error_eq (ws : List WithdrawInfo) :
    ∀ (m : Nat → List WDelayerTransfer) (e : SyncErr),
      pairWithdrawals m ws = .error e → e = .wdelayerDepositNotFound := by
  induction ws with
  | nil =>
    intro m e h
    cases h
  | cons w ws ih =>
    intro m e h
    unfold pairWithdrawals at h
    split at h
    · cases hrec : pairWithdrawals m ws with
      | error e2 =>
        rw [hrec] at h
        dsimp only at h
        cases h
        exact ih m _ hrec
      | ok p =>
        obtain ⟨ws2, m2⟩ := p
        rw [hrec] at h
        dsimp only at h
        cases h
    · cases hm : m w.txHash with
      | nil =>
        rw [hm] at h
        dsimp only at h
        cases h
        rfl
      | cons d rest =>
        rw [hm] at h
        dsimp only at h
        cases hrec : pairWithdrawals (fun k => if k = w.txHash then rest else m k) ws with
        | error e2 =>
          rw [hrec] at h
          dsimp only at h
          cases h
          exact ih _ _ hrec
        | ok p =>
          obtain ⟨ws2, m2⟩ := p
          rw [hrec] at h
          dsimp only at h
          cases h

/-- Unfolding the pairing loop at an instant withdrawal. -/
theorem pairWithdrawals_cons_instant (m : Nat → List WDelayerTransfer) (w : WithdrawInfo)
    (ws : List WithdrawInfo) (hw : w.instantWithdraw = true) :
    pairWithdrawals m (w :: ws) =
      match pairWithdrawals m ws with
      | .error e => .error e
      | .ok (ws2, m2) => .ok (w :: ws2, m2) := by
  conv_lhs => unfold pairWithdrawals
  rw [if_pos hw]

/-- Unfolding the pairing loop at a non-instant withdrawal with no matching
deposit left. -/
theorem pairWithdrawals_cons_miss (m : Nat → List WDelayerTransfer) (w : WithdrawInfo)
    (ws : List WithdrawInfo) (hw : w.instantWithdraw = false) (hm : m w.txHash = []) :
    pairWithdrawals m (w :: ws) = .error .wdelayerDepositNotFound := by
  conv_lhs => unfold pairWithdrawals
  rw [if_neg (by simp [hw]), hm]

/-- Unfolding the pairing loop at a non-instant withdrawal consuming the
first matching deposit. -/
theorem pairWithdrawals_cons_hit (m : Nat → List WDelayerTransfer) (w : WithdrawInfo)
    (ws : List WithdrawInfo) (d : WDelayerTransfer) (rest : List WDelayerTransfer)
    (hw : w.instantWithdraw = false) (hm : m w.txHash = d :: rest) :
    pairWithdrawals m (w :: ws) =
      match pairWithdrawals (fun k => if k = w.txHash then rest else m k) ws with
      | .error e => .error e
      | .ok (ws2, m2) => .ok (annotate w d :: ws2, m2) := by
  conv_lhs => unfold pairWithdrawals
  rw [if_neg (by simp [hw]), hm]
  rfl

/-- The pairing loop succeeds exactly when every non-instant withdrawal
still finds an unconsumed deposit under its tx hash: at position i, the
number of deposits stored under the hash must exceed the number consumed by
the earlier non-instant withdrawals with the same hash. -/
theorem pairWithdrawals_ok_iff (ws : List WithdrawInfo) :
    ∀ m : Nat → List WDelayerTransfer,
      (∃ p, pairWithdrawals m ws = .ok p) ↔
      (∀ i, ∀ hi : i < ws.length, (ws.get ⟨i, hi⟩).instantWithdraw = false →
        consumedBy (ws.take i) ((ws.get ⟨i, hi⟩).txHash) <
          (m ((ws.get ⟨i, hi⟩).txHash)).length) := by
  induction ws with
  | nil =>
    intro m
    constructor
    · intro _ i hi
      simp at hi
    · intro _
      exact ⟨([], m), rfl⟩
  | cons w ws ih =>
    intro m
    cases hw : w.instantWithdraw with
    | true =>
      have hstep : (∃ p, pairWithdrawals m (w :: ws) = .ok p) ↔
          (∃ p, pairWithdrawals m ws = .ok p) := by
        rw [pairWithdrawals_cons_instant m w ws hw]
        constructor
        · rintro ⟨p, hp⟩
          cases hrec : pairWithdrawals m ws with
          | error e => rw [hrec] at hp; cases hp
          | ok q => exact ⟨q, rfl⟩
        · rintro ⟨⟨ws2, m2⟩, hp⟩
          rw [hp]
          exact ⟨(w :: ws2, m2), rfl⟩
      rw [hstep, ih m]
      constructor
      · intro hall i hi
        cases i with
        | zero =>
          intro hni
          simp only [List.get] at hni
          rw [hw] at hni
          cases hni
        | succ j =>
          intro hni
          rw [List.get_cons_succ] at hni ⊢
          rw [List.take_succ_cons,
            consumedBy_cons_skip w _ _ (fun hc => by rw [hw] at hc; cases hc.1)]
          exact hall j (by simpa using Nat.lt_of_succ_lt_succ hi) hni
      · intro hall i hi hni
        have h1 := hall (i + 1) (by simpa using Nat.succ_lt_succ hi)
        rw [List.get_cons_succ] at h1
        have h2 := h1 hni
        rw [List.take_succ_cons,
          consumedBy_cons_skip w _ _ (fun hc => by rw [hw] at hc; cases hc.1)] at h2
        exact h2
    | false =>
      cases hm : m w.txHash with
      | nil =>
        have hleft : ¬ ∃ p, pairWithdrawals m (w :: ws) = .ok p := by
          rintro ⟨p, hp⟩
          rw [pairWithdrawals_cons_miss m w ws hw hm] at hp
          cases hp
        have hright : ¬ (∀ i, ∀ hi : i < (w :: ws).length,
            ((w :: ws).get ⟨i, hi⟩).instantWithdraw = false →
            consumedBy ((w :: ws).take i) (((w :: ws).get ⟨i, hi⟩).txHash) <
              (m (((w :: ws).get ⟨i, hi⟩).txHash)).length) := by
          intro hall
          have := hall 0 (by simp) (by simpa using hw)
          simp only [List.get, List.take_zero] at this
          rw [consumedBy_nil, hm] at this
          simp at this
        exact iff_of_false hleft hright
      | cons d rest =>
        have hstep : (∃ p, pairWithdrawals m (w :: ws) = .ok p) ↔
            (∃ p, pairWithdrawals (fun k => if k = w.txHash then rest else m k) ws
              = .ok p) := by
          rw [pairWithdrawals_cons_hit m w ws d rest hw hm]
          constructor
          · rintro ⟨p, hp⟩
            cases hrec : pairWithdrawals (fun k => if k = w.txHash then rest else m k) ws with
            | error e => rw [hrec] at hp; cases hp
            | ok q => exact ⟨q, rfl⟩
          · rintro ⟨⟨ws2, m2⟩, hp⟩
            rw [hp]
            exact ⟨(annotate w d :: ws2, m2), rfl⟩
        rw [hstep, ih]
        constructor
        · intro hall i hi
          cases i with
          | zero =>
            intro _
            simp only [List.get, List.take_zero]
            rw [consumedBy_nil, hm]
            simp
          | succ j =>
            intro hni
            have hj : j < ws.length := by simpa using Nat.lt_of_succ_lt_succ hi
            rw [List.get_cons_succ] at hni ⊢
            rw [List.take_succ_cons]
            have h1 := hall j hj hni
            by_cases hcase : (ws.get ⟨j, hj⟩).txHash = w.txHash
            · rw [hcase] at h1 ⊢
              rw [consumedBy_cons_hit w _ _ hw rfl]
              rw [if_pos rfl] at h1
              rw [hm]
              simp only [List.length_cons]
              omega
            · rw [consumedBy_cons_skip w _ _ (fun hc => hcase hc.2.symm)]
              rw [if_neg hcase] at h1
              exact h1
        · intro hall i hi hni
          have h1 := hall (i + 1) (by simpa using Nat.succ_lt_succ hi)
          rw [List.get_cons_succ] at h1
          have h2 := h1 hni
          rw [List.take_succ_cons] at h2
          by_cases hcase : (ws.get ⟨i, hi⟩).txHash = w.txHash
          · rw [hcase] at h2 ⊢
            rw [consumedBy_cons_hit w _ _ hw rfl] at h2
            rw [hm] at h2
            rw [if_pos rfl]
            simp only [List.length_cons] at h2
            omega
          · rw [consumedBy_cons_skip w _ _ (fun hc => hcase hc.2.symm)] at h2
            rw [if_neg hcase]
            exact h2

/-- On success, the pairing loop keeps instant withdrawals unchanged and
annotates the i-th non-instant withdrawal with the deposit at position
consumedBy(prefix) of the original entry under its tx hash: deposits sharing
a tx hash are consumed in chronological order, one per withdrawal, each
taking the earliest not-yet-consumed one. -/
theorem pairWithdrawals_ok_get (ws : List WithdrawInfo) :
    ∀ (m : Nat → List WDelayerTransfer) (res : List WithdrawInfo)
      (m2 : Nat → List WDelayerTransfer),
      pairWithdrawals m ws = .ok (res, m2) →
      res.length = ws.length ∧
      ∀ i w, ws[i]? = some w →
        (w.instantWithdraw = true → res[i]? = some w) ∧
        (w.instantWithdraw = false →
          res[i]? = ((m w.txHash)[consumedBy (ws.take i) w.txHash]?).map (annotate w)) := by
  induction ws with
  | nil =>
    intro m res m2 h
    unfold pairWithdrawals at h
    injection h with hp
    have hres : ([] : List WithdrawInfo) = res := congrArg Prod.fst hp
    subst hres
    refine ⟨rfl, ?_⟩
    intro i w hw
    simp at hw
  | cons w0 ws ih =>
    intro m res m2 h
    cases hw0 : w0.instantWithdraw with
    | true =>
      rw [pairWithdrawals_cons_instant m w0 ws hw0] at h
      cases hrec : pairWithdrawals m ws with
      | error e => rw [hrec] at h; cases h
      | ok p =>
        obtain ⟨res2, m2b⟩ := p
        rw [hrec] at h
        dsimp only at h
        injection h with hp
        have hres : w0 :: res2 = res := congrArg Prod.fst hp
        subst hres
        obtain ⟨ihlen, ihget⟩ := ih m res2 m2b hrec
        refine ⟨by simp [ihlen], ?_⟩
        intro i w hw
        cases i with
        | zero =>
          simp only [List.getElem?_cons_zero, Option.some_inj] at hw
          subst hw
          constructor
          · intro _
            simp
          · intro hni
            rw [hw0] at hni
            cases hni
        | succ j =>
          simp only [List.getElem?_cons_succ] at hw ⊢
          rw [List.take_succ_cons,
            consumedBy_cons_skip w0 _ _ (fun hc => by rw [hw0] at hc; cases hc.1)]
          exact ihget j w hw
    | false =>
      cases hm : m w0.txHash with
      | nil =>
        rw [pairWithdrawals_cons_miss m w0 ws hw0 hm] at h
        cases h
      | cons d rest =>
        rw [pairWithdrawals_cons_hit m w0 ws d rest hw0 hm] at h
        cases hrec : pairWithdrawals (fun k => if k = w0.txHash then rest else m k) ws with
        | error e => rw [hrec] at h; cases h
        | ok p =>
          obtain ⟨res2, m2b⟩ := p
          rw [hrec] at h
          dsimp only at h
          injection h with hp
          have hres : annotate w0 d :: res2 = res := congrArg Prod.fst hp
          subst hres
          obtain ⟨ihlen, ihget⟩ := ih _ res2 m2b hrec
          refine ⟨by simp [ihlen], ?_⟩
          intro i w hw
          cases i with
          | zero =>
            simp only [List.getElem?_cons_zero, Option.some_inj] at hw
            subst hw
            constructor
            · intro hins
              rw [hw0] at hins
              cases hins
            · intro _
              simp only [List.getElem?_cons_zero, List.take_zero]
              rw [consumedBy_nil, hm]
              simp
          | succ j =>
            simp only [List.getElem?_cons_succ] at hw ⊢
            obtain ⟨ih1, ih2⟩ := ihget j w hw
            constructor
            · exact ih1
            · intro hni
              have h2 := ih2 hni
              rw [List.take_succ_cons]
              by_cases hcase : w.txHash = w0.txHash
              · rw [hcase] at h2 ⊢
                rw [consumedBy_cons_hit w0 _ _ hw0 rfl]
                rw [hm]
                simp only [if_pos rfl] at h2
                simp only [List.getElem?_cons_succ]
                exact h2
              · rw [consumedBy_cons_skip w0 _ _ (fun hc => hcase hc.2.symm)]
                simp only [if_neg hcase] at h2
                exact h2

/-- Claim C5: in a synced block, every rollup Withdraw event with
InstantWithdraw false is annotated with the owner and token of the earliest
not-yet-consumed WDelayer deposit under the same tx hash (deposits sharing a
tx hash are consumed in chronological order, one per withdrawal), and Sync2
returns the hard missing-deposit error, persisting nothing for the block,
exactly when some non-instant withdrawal finds no unconsumed matching
deposit. -/
theorem withdrawal_pairing (env : SyncEnv) (db : HistoryDB) (B : Block)
    (rd : RollupData) (ad : AuctionData) (wd : WDelayerData)
    (hstart : env.startBlockNum ≤ db.lastBlock.num)
    (hchain : env.chain (db.lastBlock.num + 1) = some B)
    (hparent : db.lastBlock.hash = B.parentHash)
    (hro : rollupSync env B = .ok rd)
    (hau : auctionSync env B = .ok ad)
    (hwd : wdelayerSync env B = .ok wd) :
    (sync2 env db = .errored .wdelayerDepositNotFound ↔
      ∃ i, ∃ hi : i < rd.withdrawals.length,
        (rd.withdrawals.get ⟨i, hi⟩).instantWithdraw = false ∧
        (wd.depositsByTxHash ((rd.withdrawals.get ⟨i, hi⟩).txHash)).length ≤
          consumedBy (rd.withdrawals.take i) ((rd.withdrawals.get ⟨i, hi⟩).txHash)) ∧
    (∀ res m2, pairWithdrawals wd.depositsByTxHash rd.withdrawals = .ok (res, m2) →
      sync2 env db = .synced
        { block := B, rollup := { rd with withdrawals := res }, auction := ad,
          wdelayer := { deposits := wd.deposits, depositsByTxHash := m2 } }
        (db.addBlock
          { block := B, rollup := { rd with withdrawals := res }, auction := ad,
            wdelayer := { deposits := wd.deposits, depositsByTxHash := m2 } }) ∧
      res.length = rd.withdrawals.length ∧
      ∀ i w, rd.withdrawals[i]? = some w →
        (w.instantWithdraw = true → res[i]? = some w) ∧
        (w.instantWithdraw = false →
          res[i]? = ((wd.depositsByTxHash w.txHash)[consumedBy
            (rd.withdrawals.take i) w.txHash]?).map (annotate w))) := by
  have hreach := sync2_reach env db B hstart hchain hparent
  rw [hro, hau, hwd] at hreach
  dsimp only at hreach
  constructor
  · constructor
    · intro hsync
      cases hpair : pairWithdrawals wd.depositsByTxHash rd.withdrawals with
      | ok p =>
        obtain ⟨res, m2⟩ := p
        rw [hpair] at hreach
        dsimp only at hreach
        rw [hreach] at hsync
        cases hsync
      | error e =>
        have hnot : ¬ ∃ p, pairWithdrawals wd.depositsByTxHash rd.withdrawals = .ok p := by
          rintro ⟨p, hp⟩
          rw [hpair] at hp
          cases hp
        have hnall : ¬ (∀ j, ∀ hj : j < rd.withdrawals.length,
            (rd.withdrawals.get ⟨j, hj⟩).instantWithdraw = false →
            consumedBy (rd.withdrawals.take j) ((rd.withdrawals.get ⟨j, hj⟩).txHash) <
              (wd.depositsByTxHash ((rd.withdrawals.get ⟨j, hj⟩).txHash)).length) :=
          fun hall =>
            hnot ((pairWithdrawals_ok_iff rd.withdrawals wd.depositsByTxHash).mpr hall)
        push_neg at hnall
        obtain ⟨i, hi, hni, hle⟩ := hnall
        exact ⟨i, hi, hni, hle⟩
    · intro ⟨i, hi, hni, hle⟩
      have hnall : ¬ (∀ j, ∀ hj : j < rd.withdrawals.length,
          (rd.withdrawals.get ⟨j, hj⟩).instantWithdraw = false →
          consumedBy (rd.withdrawals.take j) ((rd.withdrawals.get ⟨j, hj⟩).txHash) <
            (wd.depositsByTxHash ((rd.withdrawals.get ⟨j, hj⟩).txHash)).length) := by
        intro hall
        have := hall i hi hni
        omega
      have hnok : ¬ ∃ p, pairWithdrawals wd.depositsByTxHash rd.withdrawals = .ok p :=
        fun hok => hnall ((pairWithdrawals_ok_iff rd.withdrawals wd.depositsByTxHash).mp hok)
      cases hpair : pairWithdrawals wd.depositsByTxHash rd.withdrawals with
      | ok p => exact absurd ⟨p, hpair⟩ hnok
      | error e =>
        have he := pairWithdrawals_error_eq rd.withdrawals wd.depositsByTxHash e hpair
        subst he
        rw [hpair] at hreach
        dsimp only at hreach
        exact hreach
  · intro res m2 hpair
    obtain ⟨hlen, hget⟩ :=
      pairWithdrawals_ok_get rd.withdrawals wd.depositsByTxHash res m2 hpair
    rw [hpair] at hreach
    dsimp only at hreach
    exact ⟨hreach, hlen, hget⟩

/-- Witness for C5: in the sample environment the block is synced with the
withdrawal annotated by the matching deposit's owner and token. -/
theorem withdrawal_pairing_witness :
    sync2 sampleSyncEnv sampleSyncDB =
      .synced sampleBlockData (sampleSyncDB.addBlock sampleBlockData) ∧
    sampleBlockData.rollup.withdrawals[0]? =
      some (annotate ⟨256, 1, false, 77, 0, 0⟩ ⟨900, 901, 50⟩) := by
  have h := (withdrawal_pairing sampleSyncEnv sampleSyncDB ⟨3, 30, 20⟩
      { withdrawals := [⟨256, 1, false, 77, 0, 0⟩], addedTokens := [] } ⟨[]⟩
      { deposits := [⟨900, 901, 50⟩],
        depositsByTxHash := fun k2 => if k2 = 77 then [(⟨900, 901, 50⟩ : WDelayerTransfer)]
          else [] }
      (by decide) rfl rfl rfl rfl rfl).2
    [⟨256, 1, false, 77, 900, 901⟩]
    (fun k => if k = 77 then [] else
      (fun k2 => if k2 = 77 then [(⟨900, 901, 50⟩ : WDelayerTransfer)] else []) k)
    rfl
  exact ⟨h.1, rfl⟩

end Hermez
